import Mathlib

/-!
Verification of the NexusFeed market-data aggregator core against its
natural-language specification.

The Python source is shallowly embedded: Python dicts keyed by floats become
association lists over the rationals, Python dicts keyed by strings become
functions into an option type, fallible Python expressions become values of an
exception monad whose errors mirror the runtime errors Python would raise
(e.g. a TypeError from calling float on None).  Library calls that the
repository does not define (ISO-8601 parsing, float-from-string parsing,
stringification) are passed in as explicit function parameters and quantified
over in the theorems.
-/

/-- Runtime errors the embedded Python expressions can raise. -/
inductive PyError where
  | typeError
  | valueError
  | indexError
deriving DecidableEq, Repr

/- ## Book state machine: connectors/binance.py -/

/-- A Python dict mapping float price to float size, embedded as an
association list over the rationals with unique keys. -/
abbrev Book := List (ℚ × ℚ)

/-- Key update of a price-keyed dict: overwrite in place when the price is
present, append otherwise (Python `book[price] = qty`). -/
def dictSet (b : Book) (p q : ℚ) : Book :=
  if b.any (fun e => decide (e.1 = p)) then
    b.map (fun e => if e.1 = p then (p, q) else e)
  else
    b ++ [(p, q)]

/-- Key removal (Python `book.pop(price, None)`). -/
def dictPop (b : Book) (p : ℚ) : Book :=
  b.filter (fun e => decide (e.1 ≠ p))

/-- BinanceOrderBookConnector._apply_levels: size 0 removes the price,
a nonzero size sets the absolute size. -/
def apply_levels (b : Book) (levels : List (ℚ × ℚ)) : Book :=
  levels.foldl (fun bk l => if l.2 = 0 then dictPop bk l.1 else dictSet bk l.1 l.2) b

/-- The dict comprehension in fetch_snapshot: later duplicates overwrite,
zero sizes are kept. -/
def dictOfPairs (l : List (ℚ × ℚ)) : Book :=
  l.foldl (fun bk e => dictSet bk e.1 e.2) []

/-- Per-symbol connector state: the inner dict of
BinanceOrderBookConnector.state. -/
structure SymState where
  last_update_id : Option ℤ
  bids : Book
  asks : Book
deriving DecidableEq, Repr

/-- A snapshot as returned by the caller-supplied snapshot fetcher. -/
structure Snapshot where
  lastUpdateId : Option ℤ
  bids : List (ℚ × ℚ)
  asks : List (ℚ × ℚ)

/-- A depth delta message (keys U, u, b, a; absent keys are none / []). -/
structure Delta where
  U : Option ℤ
  u : Option ℤ
  b : List (ℚ × ℚ)
  a : List (ℚ × ℚ)
deriving DecidableEq, Repr

/-- BinanceOrderBookConnector.state: the outer symbol-keyed dict. -/
def ConnState : Type := String → Option SymState

def emptySym : SymState := ⟨none, [], []⟩

/-- Pointwise update of the symbol dict. -/
def stUpdate (st : ConnState) (symbol : String) (v : SymState) : ConnState :=
  fun k => if k = symbol then some v else st k

/-- BinanceOrderBookConnector._ensure_state. -/
def ensure_state (st : ConnState) (symbol : String) : ConnState :=
  match st symbol with
  | some _ => st
  | none => stUpdate st symbol emptySym

/-- The symbol state fetch_snapshot installs. -/
def snapState (snap : Snapshot) : SymState :=
  ⟨snap.lastUpdateId, dictOfPairs snap.bids, dictOfPairs snap.asks⟩

/-- BinanceOrderBookConnector.fetch_snapshot. -/
def fetch_snapshot (fetcher : String → Snapshot) (st : ConnState) (symbol : String) :
    ConnState :=
  stUpdate (ensure_state st symbol) symbol (snapState (fetcher symbol))

/-- The tail of process_depth_delta after the no-snapshot branch: sequencing
check, level application, resync on gap or missing sequence numbers. -/
def processRest (fetcher : String → Snapshot) (st : ConnState) (s : SymState)
    (symbol : String) (delta : Delta) : Except PyError (Bool × ConnState) :=
  let last : ℤ := s.last_update_id.getD 0
  match delta.U, delta.u with
  | some Uv, some uv =>
    if Uv = last + 1 ∨ (Uv ≤ last + 1 ∧ last + 1 ≤ uv) then
      .ok (true, stUpdate st symbol
        ⟨some uv, apply_levels s.bids delta.b, apply_levels s.asks delta.a⟩)
    else
      .ok (false, fetch_snapshot fetcher st symbol)
  | _, _ => .ok (false, fetch_snapshot fetcher st symbol)

/-- BinanceOrderBookConnector.process_depth_delta.  The error branch embeds
the TypeError Python raises comparing an int with None when the fetched
snapshot carries no lastUpdateId. -/
def process_depth_delta (fetcher : String → Snapshot) (st0 : ConnState)
    (symbol : String) (delta : Delta) : Except PyError (Bool × ConnState) :=
  let st := ensure_state st0 symbol
  let s := (st symbol).getD emptySym
  if s.last_update_id = none then
    let st2 := fetch_snapshot fetcher st symbol
    let s2 := (st2 symbol).getD emptySym
    match delta.u with
    | some uv =>
      match s2.last_update_id with
      | some lv =>
        if uv ≤ lv then .ok (false, st2) else processRest fetcher st2 s2 symbol delta
      | none => .error .typeError
    | none => processRest fetcher st2 s2 symbol delta
  else
    processRest fetcher st s symbol delta

/-- Sequential application of a list of deltas, collecting the applied flags. -/
def runDeltas (fetcher : String → Snapshot) (st : ConnState) (symbol : String) :
    List Delta → Except PyError (List Bool × ConnState)
  | [] => .ok ([], st)
  | d :: ds =>
    match process_depth_delta fetcher st symbol d with
    | .error e => .error e
    | .ok (b, st') =>
      match runDeltas fetcher st' symbol ds with
      | .error e => .error e
      | .ok (bs, st'') => .ok (b :: bs, st'')

/-- A delta sequence is gap-free from sequence L when every delta carries both
U and u and satisfies the connector's sequencing condition at the running
last_update_id. -/
def gapFreeB : ℤ → List Delta → Bool
  | _, [] => true
  | L, d :: ds =>
    match d.U, d.u with
    | some Uv, some uv =>
      (decide (Uv = L + 1) || (decide (Uv ≤ L + 1) && decide (L + 1 ≤ uv))) && gapFreeB uv ds
    | _, _ => false

/-- The last_update_id reached after a delta sequence (the final u). -/
def finalU (L : ℤ) (ds : List Delta) : ℤ :=
  ds.foldl (fun acc d => d.u.getD acc) L

/-- The bid book obtained by merging all deltas into a starting book. -/
def mergeBids (b : Book) (ds : List Delta) : Book :=
  ds.foldl (fun bk d => apply_levels bk d.b) b

/-- The ask book obtained by merging all deltas into a starting book. -/
def mergeAsks (b : Book) (ds : List Delta) : Book :=
  ds.foldl (fun bk d => apply_levels bk d.a) b

/-- The value get_book returns. -/
structure BookOut where
  instrument : String
  sequence : Option ℤ
  bids : List (ℚ × ℚ)
  asks : List (ℚ × ℚ)
deriving DecidableEq, Repr

/-- BinanceOrderBookConnector.get_book: sorted copy of the current state
(bids descending, asks ascending) plus the state after _ensure_state. -/
def get_book (st0 : ConnState) (symbol : String) : BookOut × ConnState :=
  let st := ensure_state st0 symbol
  let s := (st symbol).getD emptySym
  (⟨symbol, s.last_update_id,
    s.bids.mergeSort (fun x y => decide (y.1 ≤ x.1)),
    s.asks.mergeSort (fun x y => decide (x.1 ≤ y.1))⟩, st)

/- ### Connector lemmas -/

theorem ensure_state_of_some {st : ConnState} {symbol : String} {v : SymState}
    (h : st symbol = some v) : ensure_state st symbol = st := by
  unfold ensure_state
  rw [h]

theorem stUpdate_self (st : ConnState) (symbol : String) (v : SymState) :
    stUpdate st symbol v symbol = some v := by
  simp [stUpdate]

theorem stUpdate_stUpdate (st : ConnState) (symbol : String) (v w : SymState) :
    stUpdate (stUpdate st symbol v) symbol w = stUpdate st symbol w := by
  funext k
  by_cases hk : k = symbol <;> simp [stUpdate, hk]

theorem processRest_applied {fetcher : String → Snapshot} {st : ConnState}
    {s : SymState} {symbol : String} {delta : Delta} {L Uv uv : ℤ}
    (hl : s.last_update_id = some L) (hU : delta.U = some Uv) (hu : delta.u = some uv)
    (hcond : Uv = L + 1 ∨ (Uv ≤ L + 1 ∧ L + 1 ≤ uv)) :
    processRest fetcher st s symbol delta =
      .ok (true, stUpdate st symbol
        ⟨some uv, apply_levels s.bids delta.b, apply_levels s.asks delta.a⟩) := by
  unfold processRest
  rw [hU, hu, hl]
  simp only [Option.getD_some]
  rw [if_pos hcond]

theorem processRest_gap {fetcher : String → Snapshot} {st : ConnState}
    {s : SymState} {symbol : String} {delta : Delta} {L : ℤ}
    (hl : s.last_update_id = some L)
    (hbad : delta.U = none ∨ delta.u = none ∨
      ∀ Uv uv, delta.U = some Uv → delta.u = some uv →
        ¬(Uv = L + 1 ∨ (Uv ≤ L + 1 ∧ L + 1 ≤ uv))) :
    processRest fetcher st s symbol delta = .ok (false, fetch_snapshot fetcher st symbol) := by
  unfold processRest
  rw [hl]
  simp only [Option.getD_some]
  rcases hU : delta.U with _ | Uv
  · rfl
  rcases hu : delta.u with _ | uv
  · rfl
  rcases hbad with h | h | h
  · rw [hU] at h; exact absurd h (by simp)
  · rw [hu] at h; exact absurd h (by simp)
  · simp only [if_neg (h Uv uv hU hu)]

theorem process_depth_delta_applied {fetcher : String → Snapshot} {st : ConnState}
    {s : SymState} {symbol : String} {delta : Delta} {L Uv uv : ℤ}
    (hst : st symbol = some s) (hl : s.last_update_id = some L)
    (hU : delta.U = some Uv) (hu : delta.u = some uv)
    (hcond : Uv = L + 1 ∨ (Uv ≤ L + 1 ∧ L + 1 ≤ uv)) :
    process_depth_delta fetcher st symbol delta =
      .ok (true, stUpdate st symbol
        ⟨some uv, apply_levels s.bids delta.b, apply_levels s.asks delta.a⟩) := by
  unfold process_depth_delta
  rw [ensure_state_of_some hst]
  simp only [hst, Option.getD_some]
  rw [if_neg (by rw [hl]; simp)]
  exact processRest_applied hl hU hu hcond

theorem process_depth_delta_gap {fetcher : String → Snapshot} {st : ConnState}
    {s : SymState} {symbol : String} {delta : Delta} {L : ℤ}
    (hst : st symbol = some s) (hl : s.last_update_id = some L)
    (hbad : delta.U = none ∨ delta.u = none ∨
      ∀ Uv uv, delta.U = some Uv → delta.u = some uv →
        ¬(Uv = L + 1 ∨ (Uv ≤ L + 1 ∧ L + 1 ≤ uv))) :
    process_depth_delta fetcher st symbol delta =
      .ok (false, fetch_snapshot fetcher st symbol) := by
  unfold process_depth_delta
  rw [ensure_state_of_some hst]
  simp only [hst, Option.getD_some]
  rw [if_neg (by rw [hl]; simp)]
  exact processRest_gap hl hbad

theorem runDeltas_gapFree {fetcher : String → Snapshot} {symbol : String} :
    ∀ (ds : List Delta) (st : ConnState) (s : SymState) (L : ℤ),
    st symbol = some s → s.last_update_id = some L → gapFreeB L ds = true →
    runDeltas fetcher st symbol ds =
      .ok (List.replicate ds.length true,
        stUpdate st symbol ⟨some (finalU L ds), mergeBids s.bids ds, mergeAsks s.asks ds⟩) := by
  intro ds
  induction ds with
  | nil =>
    intro st s L hst hl _
    simp only [runDeltas, List.length_nil, List.replicate_zero]
    have hfun : stUpdate st symbol ⟨some (finalU L []), mergeBids s.bids [], mergeAsks s.asks []⟩ = st := by
      funext k
      by_cases hk : k = symbol
      · subst hk
        rw [hst]
        obtain ⟨lid, b, a⟩ := s
        simp only at hl
        subst hl
        simp [stUpdate, finalU, mergeBids, mergeAsks]
      · simp [stUpdate, hk]
    rw [hfun]
  | cons d ds ih =>
    intro st s L hst hl hg
    rcases hU : d.U with _ | Uv
    · rw [gapFreeB, hU] at hg; simp at hg
    rcases hu : d.u with _ | uv
    · rw [gapFreeB, hU, hu] at hg; simp at hg
    rw [gapFreeB, hU, hu, Bool.and_eq_true] at hg
    obtain ⟨hcond, hrest⟩ := hg
    have hcond' : Uv = L + 1 ∨ (Uv ≤ L + 1 ∧ L + 1 ≤ uv) := by
      simp only [Bool.or_eq_true, Bool.and_eq_true, decide_eq_true_eq] at hcond
      tauto
    have hstep : process_depth_delta fetcher st symbol d =
        .ok (true, stUpdate st symbol
          ⟨some uv, apply_levels s.bids d.b, apply_levels s.asks d.a⟩) :=
      process_depth_delta_applied hst hl hU hu hcond'
    have hst' : stUpdate st symbol
        ⟨some uv, apply_levels s.bids d.b, apply_levels s.asks d.a⟩ symbol =
        some ⟨some uv, apply_levels s.bids d.b, apply_levels s.asks d.a⟩ :=
      stUpdate_self _ _ _
    have hrun := ih _ _ uv hst' rfl hrest
    have hfin : finalU L (d :: ds) = finalU uv ds := by
      simp [finalU, hu]
    have hmb : mergeBids s.bids (d :: ds) = mergeBids (apply_levels s.bids d.b) ds := by
      simp [mergeBids]
    have hma : mergeAsks s.asks (d :: ds) = mergeAsks (apply_levels s.asks d.a) ds := by
      simp [mergeAsks]
    rw [runDeltas, hstep]
    simp only [hrun, stUpdate_stUpdate, List.length_cons, List.replicate_succ, hfin, hmb, hma]

/- ### Claim theorems for the book state machine -/

/-- C1: with a snapshot in place (last_update_id = L), a delta carrying both U
and u with U = L + 1 or U ≤ L + 1 ≤ u is applied: every level is merged
(size 0 removes the price, nonzero size sets the absolute size),
last_update_id becomes u and the call returns true; consequently a gap-free
delta sequence is applied in full, the final last_update_id is the last
delta's u and the book is the snapshot book merged with every delta in
order. -/
theorem binance_gapfree_deltas_apply :
    (∀ (fetcher : String → Snapshot) (st : ConnState) (symbol : String)
       (s : SymState) (L : ℤ) (delta : Delta) (Uv uv : ℤ),
       st symbol = some s → s.last_update_id = some L →
       delta.U = some Uv → delta.u = some uv →
       (Uv = L + 1 ∨ (Uv ≤ L + 1 ∧ L + 1 ≤ uv)) →
       process_depth_delta fetcher st symbol delta =
         .ok (true, stUpdate st symbol
           ⟨some uv, apply_levels s.bids delta.b, apply_levels s.asks delta.a⟩)) ∧
    (∀ (fetcher : String → Snapshot) (st : ConnState) (symbol : String)
       (s : SymState) (L : ℤ) (ds : List Delta),
       st symbol = some s → s.last_update_id = some L → gapFreeB L ds = true →
       runDeltas fetcher st symbol ds =
         .ok (List.replicate ds.length true,
           stUpdate st symbol
             ⟨some (finalU L ds), mergeBids s.bids ds, mergeAsks s.asks ds⟩)) :=
  ⟨fun _ _ _ _ _ _ _ _ hst hl hU hu hcond =>
      process_depth_delta_applied hst hl hU hu hcond,
   fun _ _ _ _ _ ds hst hl hg => runDeltas_gapFree ds _ _ _ hst hl hg⟩

/-- Witness for C1 at a concrete snapshot state and delta. -/
theorem binance_gapfree_deltas_apply_witness :
    process_depth_delta (fun _ => ⟨some 100, [], []⟩)
      (stUpdate (fun _ => none) "S" ⟨some 5, [(1, 2)], []⟩) "S"
      ⟨some 6, some 7, [(1, 0), (3, 4)], [(2, 1)]⟩ =
      .ok (true, stUpdate (stUpdate (fun _ => none) "S" ⟨some 5, [(1, 2)], []⟩) "S"
        ⟨some 7, apply_levels [(1, 2)] [(1, 0), (3, 4)], apply_levels [] [(2, 1)]⟩) ∧
    runDeltas (fun _ => ⟨some 100, [], []⟩)
      (stUpdate (fun _ => none) "S" ⟨some 5, [(1, 2)], []⟩) "S"
      [⟨some 6, some 7, [(1, 0), (3, 4)], [(2, 1)]⟩] =
      .ok ([true], stUpdate (stUpdate (fun _ => none) "S" ⟨some 5, [(1, 2)], []⟩) "S"
        ⟨some (finalU 5 [⟨some 6, some 7, [(1, 0), (3, 4)], [(2, 1)]⟩]),
         mergeBids [(1, 2)] [⟨some 6, some 7, [(1, 0), (3, 4)], [(2, 1)]⟩],
         mergeAsks [] [⟨some 6, some 7, [(1, 0), (3, 4)], [(2, 1)]⟩]⟩) := by
  constructor
  · exact binance_gapfree_deltas_apply.1 _ _ _ ⟨some 5, [(1, 2)], []⟩ 5 _ 6 7
      rfl rfl rfl rfl (by decide)
  · exact binance_gapfree_deltas_apply.2 _ _ _ ⟨some 5, [(1, 2)], []⟩ 5 _
      rfl rfl (by decide)

/-- C2: with a snapshot in place, a delta with U or u missing, or with both
present but failing the sequencing condition, triggers a resync: the call
returns false, the symbol state is reset to the fetched snapshot's
lastUpdateId, bids and asks (so the failing delta's levels are not applied),
and the state of every other symbol is untouched. -/
theorem binance_gap_resync :
    ∀ (fetcher : String → Snapshot) (st : ConnState) (symbol : String)
      (s : SymState) (L : ℤ) (delta : Delta),
      st symbol = some s → s.last_update_id = some L →
      (delta.U = none ∨ delta.u = none ∨
        ∀ Uv uv, delta.U = some Uv → delta.u = some uv →
          ¬(Uv = L + 1 ∨ (Uv ≤ L + 1 ∧ L + 1 ≤ uv))) →
      process_depth_delta fetcher st symbol delta =
        .ok (false, fetch_snapshot fetcher st symbol) ∧
      fetch_snapshot fetcher st symbol symbol = some (snapState (fetcher symbol)) ∧
      ∀ k, k ≠ symbol → fetch_snapshot fetcher st symbol k = st k := by
  intro fetcher st symbol s L delta hst hl hbad
  refine ⟨process_depth_delta_gap hst hl hbad, stUpdate_self _ _ _, ?_⟩
  intro k hk
  simp [fetch_snapshot, stUpdate, hk, ensure_state_of_some hst]

/-- Witness for C2 at a concrete out-of-order delta. -/
theorem binance_gap_resync_witness :
    process_depth_delta (fun _ => ⟨some 100, [(2, 3)], []⟩)
      (stUpdate (fun _ => none) "S" ⟨some 100, [], []⟩) "S"
      ⟨some 200, some 200, [(1, 1)], []⟩ =
      .ok (false, fetch_snapshot (fun _ => ⟨some 100, [(2, 3)], []⟩)
        (stUpdate (fun _ => none) "S" ⟨some 100, [], []⟩) "S") :=
  (binance_gap_resync _ _ _ ⟨some 100, [], []⟩ 100 _ rfl rfl
    (Or.inr (Or.inr (fun Uv uv hU hu => by
      simp only [Option.some.injEq] at hU hu
      subst hU
      subst hu
      decide)))).1

/-- Sortedness of the descending bid sort in get_book. -/
theorem sortedDesc (l : List (ℚ × ℚ)) :
    List.Sorted (fun x y : ℚ × ℚ => y.1 ≤ x.1)
      (l.mergeSort (fun x y => decide (y.1 ≤ x.1))) := by
  have h := @List.sorted_mergeSort (ℚ × ℚ) (fun x y => decide (y.1 ≤ x.1))
    (fun a b c h1 h2 => by
      simp only [decide_eq_true_eq] at *
      exact le_trans h2 h1)
    (fun a b => by
      simp only [Bool.or_eq_true, decide_eq_true_eq]
      exact le_total b.1 a.1)
    l
  exact List.Pairwise.imp (fun hab => by simpa using hab) h

/-- Sortedness of the ascending ask sort in get_book. -/
theorem sortedAsc (l : List (ℚ × ℚ)) :
    List.Sorted (fun x y : ℚ × ℚ => x.1 ≤ y.1)
      (l.mergeSort (fun x y => decide (x.1 ≤ y.1))) := by
  have h := @List.sorted_mergeSort (ℚ × ℚ) (fun x y => decide (x.1 ≤ y.1))
    (fun a b c h1 h2 => by
      simp only [decide_eq_true_eq] at *
      exact le_trans h1 h2)
    (fun a b => by
      simp only [Bool.or_eq_true, decide_eq_true_eq]
      exact le_total a.1 b.1)
    l
  exact List.Pairwise.imp (fun hab => by simpa using hab) h

theorem get_book_bids (st : ConnState) (symbol : String) :
    ((get_book st symbol).1).bids =
      ((((ensure_state st symbol) symbol).getD emptySym).bids).mergeSort
        (fun x y => decide (y.1 ≤ x.1)) := rfl

theorem get_book_asks (st : ConnState) (symbol : String) :
    ((get_book st symbol).1).asks =
      ((((ensure_state st symbol) symbol).getD emptySym).asks).mergeSort
        (fun x y => decide (x.1 ≤ y.1)) := rfl

theorem get_book_sequence (st : ConnState) (symbol : String) :
    ((get_book st symbol).1).sequence =
      (((ensure_state st symbol) symbol).getD emptySym).last_update_id := rfl

/-- C9: get_book returns the current state as sorted level lists (bids by
price descending, asks ascending, each a permutation of the held book),
with sequence equal to the current last_update_id; for a symbol that never
received a snapshot or delta it returns sequence none and empty bids and
asks instead of failing. -/
theorem get_book_spec :
    ∀ (st : ConnState) (symbol : String),
      List.Sorted (fun x y : ℚ × ℚ => y.1 ≤ x.1) ((get_book st symbol).1).bids ∧
      List.Sorted (fun x y : ℚ × ℚ => x.1 ≤ y.1) ((get_book st symbol).1).asks ∧
      ((get_book st symbol).1).bids.Perm (((st symbol).getD emptySym).bids) ∧
      ((get_book st symbol).1).asks.Perm (((st symbol).getD emptySym).asks) ∧
      ((get_book st symbol).1).sequence = ((st symbol).getD emptySym).last_update_id ∧
      (st symbol = none →
        ((get_book st symbol).1).sequence = none ∧
        ((get_book st symbol).1).bids = [] ∧ ((get_book st symbol).1).asks = []) := by
  intro st symbol
  have hswitch : ((ensure_state st symbol) symbol).getD emptySym = (st symbol).getD emptySym := by
    rcases hsym : st symbol with _ | s
    · unfold ensure_state
      rw [hsym]
      simp [stUpdate]
    · rw [ensure_state_of_some hsym, hsym]
  refine ⟨?_, ?_, ?_, ?_, ?_, ?_⟩
  · exact sortedDesc _
  · exact sortedAsc _
  · rw [get_book_bids, hswitch]
    exact List.mergeSort_perm _ _
  · rw [get_book_asks, hswitch]
    exact List.mergeSort_perm _ _
  · rw [get_book_sequence, hswitch]
  · intro hnone
    refine ⟨?_, ?_, ?_⟩
    · rw [get_book_sequence, hswitch, hnone]
      rfl
    · rw [get_book_bids, hswitch, hnone]
      simp [emptySym]
    · rw [get_book_asks, hswitch, hnone]
      simp [emptySym]

/-- Witness for C9 at a never-seen symbol. -/
theorem get_book_spec_witness :
    ((get_book (fun _ => none) "S").1).sequence = none ∧
    ((get_book (fun _ => none) "S").1).bids = [] ∧
    ((get_book (fun _ => none) "S").1).asks = [] :=
  (get_book_spec (fun _ => none) "S").2.2.2.2.2 rfl

/- ## Normalizer: normalizer/normalizer.py -/

/-- A Python/JSON value as handled by the normalizer. -/
inductive JVal where
  | num (q : ℚ)
  | str (s : String)
  | arr (l : List JVal)
  | obj (l : List (String × JVal))
  | null

/-- Python dict .get: missing keys and stored None both come back as null. -/
def jget (raw : List (String × JVal)) (k : String) : JVal :=
  match raw.find? (fun e => decide (e.1 = k)) with
  | some e => e.2
  | none => .null

/-- Python truthiness of a JSON value. -/
def truthy : JVal → Bool
  | .null => false
  | .num q => decide (q ≠ 0)
  | .str s => decide (s ≠ "")
  | .arr [] => false
  | .arr (_ :: _) => true
  | .obj [] => false
  | .obj (_ :: _) => true

/-- Python `a or b` on values: a when truthy, else b. -/
def orJ (a b : JVal) : JVal := if truthy a then a else b

/-- Python float(): numbers pass through, strings go through the runtime
float parser (ValueError on failure), None and containers raise TypeError. -/
def pyFloat (parseFloat : String → Option ℚ) : JVal → Except PyError ℚ
  | .num q => .ok q
  | .str s =>
    match parseFloat s with
    | some q => .ok q
    | none => .error .valueError
  | .null => .error .typeError
  | .arr _ => .error .typeError
  | .obj _ => .error .typeError

/-- Python `float(v) if v is not None else None`. -/
def floatIfSome (parseFloat : String → Option ℚ) : JVal → Except PyError (Option ℚ)
  | .null => .ok none
  | v => (pyFloat parseFloat v).map some

/-- Python `str(v) if v is not None else None`; stringification of the
runtime is the parameter showJ. -/
def strIfSome (showJ : JVal → String) : JVal → Option String
  | .null => none
  | v => some (showJ v)

/-- The result of the _iso helper: an epoch number converted to a UTC instant,
a string parsed by fromisoformat (kept verbatim when unparseable), or the
current time for anything else. -/
inductive IsoOut where
  | epoch (q : ℚ)
  | parsed (q : ℚ)
  | raw (s : String)
  | nowIso
deriving DecidableEq, Repr

/-- normalizer._iso: numbers above 1e12 are milliseconds since the epoch,
other numbers seconds; strings are parsed as ISO-8601 after rewriting a
trailing Z (returned verbatim when parsing fails); anything else becomes the
current UTC time.  The ISO parser of the datetime library is the parameter
parseIso. -/
def pyIso (parseIso : String → Option ℚ) : JVal → IsoOut
  | .num q => .epoch (if (10 ^ 12 : ℚ) < q then q / 1000 else q)
  | .str s =>
    match parseIso (s.replace "Z" "+00:00") with
    | some q => .parsed q
    | none => .raw s
  | _ => .nowIso

/-- The record normalize_trade returns. -/
structure NTrade where
  source : String
  instrument : JVal
  trade_id : Option String
  price : Option ℚ
  size : Option ℚ
  side : JVal
  timestamp : IsoOut

/-- normalizer.normalize_trade.  The two branches of the source's
`ts.endswith("Z")` conditional call the same _iso, so a single call is
embedded. -/
def normalize_trade (parseFloat : String → Option ℚ) (parseIso : String → Option ℚ)
    (showJ : JVal → String) (raw : List (String × JVal)) (source : String) :
    Except PyError NTrade := do
  let symbol := orJ (orJ (jget raw "symbol") (jget raw "instrument")) (jget raw "pair")
  let tradeId := orJ (orJ (jget raw "id") (jget raw "trade_id")) (jget raw "tid")
  let price := jget raw "price"
  let size := orJ (orJ (jget raw "amount") (jget raw "qty")) (jget raw "size")
  let side := jget raw "side"
  let ts := orJ (jget raw "timestamp") (jget raw "datetime")
  let timestamp := pyIso parseIso ts
  let priceF ← floatIfSome parseFloat price
  let sizeF ← floatIfSome parseFloat size
  .ok ⟨source, symbol, strIfSome showJ tradeId, priceF, sizeF, side, timestamp⟩

/-- The record normalize_book returns. -/
structure NBook where
  source : String
  instrument : JVal
  sequence : JVal
  bids : List (ℚ × ℚ)
  asks : List (ℚ × ℚ)
  timestamp : IsoOut

/-- Python `lvl[i]`: IndexError past the end. -/
def jIndex (l : List JVal) (n : ℕ) : Except PyError JVal :=
  match l.get? n with
  | some v => .ok v
  | none => .error .indexError

/-- One iteration of normalize_book._levels: list/tuple levels read positions
0 and 1, dict levels read price and the amount|size|qty or-chain, anything
else is skipped (returns none). -/
def levelOf (parseFloat : String → Option ℚ) (lvl : JVal) :
    Except PyError (Option (ℚ × ℚ)) :=
  match lvl with
  | .arr l => do
    let p ← pyFloat parseFloat (← jIndex l 0)
    let q ← pyFloat parseFloat (← jIndex l 1)
    .ok (some (p, q))
  | .obj o => do
    let p ← pyFloat parseFloat (jget o "price")
    let q ← pyFloat parseFloat (orJ (orJ (jget o "amount") (jget o "size")) (jget o "qty"))
    .ok (some (p, q))
  | _ => .ok none

/-- normalize_book._levels over a level list. -/
def levelsOf (parseFloat : String → Option ℚ) : List JVal → Except PyError (List (ℚ × ℚ))
  | [] => .ok []
  | l :: ls => do
    let r ← levelOf parseFloat l
    let rest ← levelsOf parseFloat ls
    .ok (match r with | some x => x :: rest | none => rest)

/-- Python iteration over the bids/asks value: lists iterate their elements;
strings and dicts iterate characters or keys, none of which is a list or
dict level, so every element is skipped; iterating a number raises
TypeError.  The null case cannot be reached past the `or []` default. -/
def iterLevels : JVal → Except PyError (List JVal)
  | .arr l => .ok l
  | .str _ => .ok []
  | .obj _ => .ok []
  | .num _ => .error .typeError
  | .null => .error .typeError

/-- normalizer.normalize_book. -/
def normalize_book (parseFloat : String → Option ℚ) (parseIso : String → Option ℚ)
    (raw : List (String × JVal)) (source : String) : Except PyError NBook := do
  let symbol := orJ (orJ (jget raw "symbol") (jget raw "instrument")) (jget raw "pair")
  let sequence := orJ (orJ (jget raw "nonce") (jget raw "sequence")) (jget raw "seq")
  let bids := orJ (jget raw "bids") (.arr [])
  let asks := orJ (jget raw "asks") (.arr [])
  let ts := orJ (jget raw "timestamp") (jget raw "datetime")
  let timestamp := pyIso parseIso ts
  let bl ← iterLevels bids
  let bres ← levelsOf parseFloat bl
  let al ← iterLevels asks
  let ares ← levelsOf parseFloat al
  .ok ⟨source, symbol, sequence, bres, ares, timestamp⟩

/- ### Claim theorems for the normalizer -/

/-- C3 counterexample: a trade payload missing instrument, price and size is
normalized successfully (price and size become none); no MalformedPayload
failure occurs. -/
theorem normalize_trade_missing_fields_counterexample :
    normalize_trade (fun _ => none) (fun _ => none) (fun _ => "") [] "binance" =
      .ok ⟨"binance", .null, none, none, none, .null, .nowIso⟩ := rfl

/-- C3 (amended): the normalizer performs no required-field validation.  A
trade payload whose price field is None/absent and whose amount/qty/size
or-chain is None normalizes successfully with price = none and size = none
(the instrument passes through even when absent); a book payload with bids
and asks absent normalizes successfully with empty level lists.  No
MalformedPayload error is raised anywhere. -/
theorem normalize_missing_fields_no_error :
    (∀ (pF pI : String → Option ℚ) (sJ : JVal → String)
       (raw : List (String × JVal)) (source : String),
       jget raw "price" = .null →
       orJ (orJ (jget raw "amount") (jget raw "qty")) (jget raw "size") = .null →
       normalize_trade pF pI sJ raw source =
         .ok ⟨source,
           orJ (orJ (jget raw "symbol") (jget raw "instrument")) (jget raw "pair"),
           strIfSome sJ (orJ (orJ (jget raw "id") (jget raw "trade_id")) (jget raw "tid")),
           none, none, jget raw "side",
           pyIso pI (orJ (jget raw "timestamp") (jget raw "datetime"))⟩) ∧
    (∀ (pF pI : String → Option ℚ) (raw : List (String × JVal)) (source : String),
       jget raw "bids" = .null → jget raw "asks" = .null →
       normalize_book pF pI raw source =
         .ok ⟨source,
           orJ (orJ (jget raw "symbol") (jget raw "instrument")) (jget raw "pair"),
           orJ (orJ (jget raw "nonce") (jget raw "sequence")) (jget raw "seq"),
           [], [],
           pyIso pI (orJ (jget raw "timestamp") (jget raw "datetime"))⟩) := by
  constructor
  · intro pF pI sJ raw source hp hs
    unfold normalize_trade
    rw [hp, hs]
    rfl
  · intro pF pI raw source hb ha
    unfold normalize_book
    rw [hb, ha]
    rfl

/-- Witness for the amended C3 at a concrete empty payload. -/
theorem normalize_missing_fields_no_error_witness :
    normalize_trade (fun _ => none) (fun _ => none) (fun _ => "") [] "b" =
      .ok ⟨"b", .null, none, none, none, .null, .nowIso⟩ ∧
    normalize_book (fun _ => none) (fun _ => none) [] "b" =
      .ok ⟨"b", .null, .null, [], [], .nowIso⟩ := by
  constructor
  · exact normalize_missing_fields_no_error.1 (fun _ => none) (fun _ => none)
      (fun _ => "") [] "b" rfl rfl
  · exact normalize_missing_fields_no_error.2 (fun _ => none) (fun _ => none) [] "b" rfl rfl

/-- C8: a pair-form level with size 0 is preserved verbatim, but an
object-form level whose size key holds 0 makes normalize_book raise a
TypeError: the amount-or-size-or-qty chain treats the 0 as absent, falls off
the end with None, and float(None) fails.  This contradicts the spec's
"zero-size levels are preserved verbatim". -/
theorem normalize_book_zero_size_dict_level :
    normalize_book (fun _ => none) (fun _ => none)
      [("symbol", .str "ETH/USDT"),
       ("bids", .arr [.obj [("price", .num 1), ("size", .num 0)]]),
       ("asks", .arr [])] "t" = .error .typeError ∧
    normalize_book (fun _ => none) (fun _ => none)
      [("symbol", .str "ETH/USDT"),
       ("bids", .arr [.arr [.num 1, .num 0]]),
       ("asks", .arr [])] "t" =
      .ok ⟨"t", .str "ETH/USDT", .null, [(1, 0)], [], .nowIso⟩ := ⟨rfl, rfl⟩

/- ## Persistence repo: storage/repo.py -/

/-- A timestamp-like Python value: number, string, or datetime (a datetime is
already an instant, carried as a rational). -/
inductive TsVal where
  | num (q : ℚ)
  | str (s : String)
  | dt (q : ℚ)
deriving DecidableEq, Repr

/-- Python truthiness of an optional timestamp value. -/
def truthyTs : Option TsVal → Bool
  | none => false
  | some (.num q) => decide (q ≠ 0)
  | some (.str s) => decide (s ≠ "")
  | some (.dt _) => true

/-- Python `a or b` on optional timestamp values. -/
def orTs (a b : Option TsVal) : Option TsVal := if truthyTs a then a else b

/-- repo._to_dt: datetimes pass through as UTC instants, numbers above 1e12
are milliseconds since the epoch, other numbers seconds, strings go through
the ISO parser (falling back to the current time), absent values become the
current time. -/
def to_dt (parseIso : String → Option ℚ) (now : ℚ) : Option TsVal → ℚ
  | some (.dt q) => q
  | some (.num v) => if (10 ^ 12 : ℚ) < v then v / 1000 else v
  | some (.str s) => (parseIso (s.replace "Z" "+00:00")).getD now
  | none => now

/-- The fields insert_snapshot reads from its input dict. -/
structure SnapInput where
  source : String
  instrument : String
  sequence : Option ℤ
  bids : List (ℚ × ℚ)
  asks : List (ℚ × ℚ)
  timestamp : Option TsVal
  ts : Option TsVal
deriving DecidableEq

/-- A persisted orderbook_snapshots row. -/
structure SnapRow where
  source : String
  instrument : String
  sequence : Option ℤ
  bids : List (ℚ × ℚ)
  asks : List (ℚ × ℚ)
  ts : ℚ
deriving DecidableEq

/-- The row contents insert_snapshot persists for an input. -/
def rowOf (parseIso : String → Option ℚ) (now : ℚ) (i : SnapInput) : SnapRow :=
  ⟨i.source, i.instrument, i.sequence, i.bids, i.asks,
    to_dt parseIso now (orTs i.timestamp i.ts)⟩

/-- The select-then-update-or-insert of insert_snapshot: overwrite the first
row with the same (source, instrument), else append. -/
def updateFirstRow : List SnapRow → SnapRow → List SnapRow
  | [], r => [r]
  | row :: rest, r =>
    if row.source = r.source ∧ row.instrument = r.instrument then r :: rest
    else row :: updateFirstRow rest r

/-- Repo.insert_snapshot acting on the table contents. -/
def insert_snapshot (parseIso : String → Option ℚ) (now : ℚ) (db : List SnapRow)
    (i : SnapInput) : List SnapRow :=
  updateFirstRow db (rowOf parseIso now i)

/-- Row selection by (source, instrument). -/
def rowMatches (src instr : String) (r : SnapRow) : Bool :=
  decide (r.source = src ∧ r.instrument = instr)

/-- Input selection by (source, instrument). -/
def inputMatches (src instr : String) (i : SnapInput) : Bool :=
  decide (i.source = src ∧ i.instrument = instr)

theorem filter_updateFirstRow_same (db : List SnapRow) (r : SnapRow) :
    (updateFirstRow db r).filter (rowMatches r.source r.instrument) =
      r :: (db.filter (rowMatches r.source r.instrument)).tail := by
  induction db with
  | nil => simp [updateFirstRow, rowMatches]
  | cons row rest ih =>
    by_cases h : row.source = r.source ∧ row.instrument = r.instrument
    · simp [updateFirstRow, h, rowMatches]
    · simp [updateFirstRow, h, rowMatches, ih]

theorem filter_updateFirstRow_other (db : List SnapRow) (r : SnapRow) (src instr : String)
    (h : ¬(r.source = src ∧ r.instrument = instr)) :
    (updateFirstRow db r).filter (rowMatches src instr) =
      db.filter (rowMatches src instr) := by
  induction db with
  | nil => simp [updateFirstRow, rowMatches, h]
  | cons row rest ih =>
    by_cases hm : row.source = r.source ∧ row.instrument = r.instrument
    · have hrow : ¬(row.source = src ∧ row.instrument = instr) := by
        rintro ⟨h1, h2⟩
        exact h ⟨hm.1 ▸ h1, hm.2 ▸ h2⟩
      simp [updateFirstRow, hm, rowMatches, h, hrow]
    · simp only [updateFirstRow, if_neg hm, List.filter_cons, ih]

theorem repo_db_filter (parseIso : String → Option ℚ) (now : ℚ) (src instr : String) :
    ∀ l : List SnapInput,
    (l.foldl (insert_snapshot parseIso now) []).filter (rowMatches src instr) =
      ((l.filter (inputMatches src instr)).getLast?).elim []
        (fun i => [rowOf parseIso now i]) := by
  intro l
  induction l using List.reverseRecOn with
  | nil => rfl
  | append_singleton l i ih =>
    rw [List.foldl_append, List.foldl_cons, List.foldl_nil, List.filter_append]
    by_cases hi : i.source = src ∧ i.instrument = instr
    · have hrow : (rowOf parseIso now i).source = src ∧ (rowOf parseIso now i).instrument = instr := hi
      have hsame := filter_updateFirstRow_same
        (l.foldl (insert_snapshot parseIso now) []) (rowOf parseIso now i)
      rw [show insert_snapshot parseIso now (l.foldl (insert_snapshot parseIso now) []) i =
        updateFirstRow (l.foldl (insert_snapshot parseIso now) []) (rowOf parseIso now i) from rfl]
      rw [hrow.1, hrow.2] at hsame
      rw [hsame, ih]
      have hfi : List.filter (inputMatches src instr) [i] = [i] := by
        simp [inputMatches, hi]
      rw [hfi, List.getLast?_concat]
      rcases hlast : (l.filter (inputMatches src instr)).getLast? with _ | j <;> simp [hlast]
    · have hother := filter_updateFirstRow_other
        (l.foldl (insert_snapshot parseIso now) []) (rowOf parseIso now i) src instr hi
      rw [show insert_snapshot parseIso now (l.foldl (insert_snapshot parseIso now) []) i =
        updateFirstRow (l.foldl (insert_snapshot parseIso now) []) (rowOf parseIso now i) from rfl]
      rw [hother, ih]
      have hfi : List.filter (inputMatches src instr) [i] = [] := by
        simp [inputMatches, hi]
      rw [hfi, List.append_nil]

/-- C4: starting from an empty table, after any sequence of insert_snapshot
calls of which at least one targets (src, instr) — the most recent being
input i — exactly one row for (src, instr) exists, and its sequence, bids,
asks and ts are those computed from i (insert when absent, update the
existing row in place otherwise). -/
theorem insert_snapshot_upsert :
    ∀ (parseIso : String → Option ℚ) (now : ℚ) (l : List SnapInput)
      (src instr : String) (i : SnapInput),
      (l.filter (inputMatches src instr)).getLast? = some i →
      (l.foldl (insert_snapshot parseIso now) []).filter (rowMatches src instr) =
        [rowOf parseIso now i] := by
  intro parseIso now l src instr i hlast
  rw [repo_db_filter, hlast]
  rfl

/-- Witness for C4: two snapshots for the same pair; the single surviving row
carries the second input's fields. -/
theorem insert_snapshot_upsert_witness :
    List.filter (rowMatches "binance" "BTC/USDT")
      (List.foldl (insert_snapshot (fun _ => none) 0) []
        [⟨"binance", "BTC/USDT", some 1, [(1, 1)], [], some (.num 5), none⟩,
         ⟨"binance", "BTC/USDT", some 2, [(2, 2)], [], some (.num 7), none⟩]) =
      [rowOf (fun _ => none) 0
        ⟨"binance", "BTC/USDT", some 2, [(2, 2)], [], some (.num 7), none⟩] :=
  insert_snapshot_upsert (fun _ => none) 0
    [⟨"binance", "BTC/USDT", some 1, [(1, 1)], [], some (.num 5), none⟩,
     ⟨"binance", "BTC/USDT", some 2, [(2, 2)], [], some (.num 7), none⟩]
    "binance" "BTC/USDT"
    ⟨"binance", "BTC/USDT", some 2, [(2, 2)], [], some (.num 7), none⟩ (by decide)

/- ### Trade batching (Repo.insert_trade / _run / shutdown)

The trade payload is abstracted as a type parameter: the claim concerns the
batching discipline, not the field conversions of the Trade constructor.
The cooperative scheduler is modelled by an arbitrary interleaving of
insert_trade calls and background-flusher wakeups. -/

/-- The batch buffer and the committed store of a Repo. -/
structure RepoState (α : Type) where
  batch : List α
  stored : List α
deriving DecidableEq

/-- Repo._flush_locked: no-op on an empty batch, otherwise drain the batch
and commit it in order. -/
def flush_locked {α : Type} (r : RepoState α) : RepoState α :=
  match r.batch with
  | [] => r
  | _ => ⟨[], r.stored ++ r.batch⟩

/-- Repo.insert_trade: append under the lock and flush immediately when the
batch has reached batch_size. -/
def insert_trade {α : Type} (batch_size : ℕ) (r : RepoState α) (t : α) : RepoState α :=
  let r2 : RepoState α := ⟨r.batch ++ [t], r.stored⟩
  if batch_size ≤ r2.batch.length then flush_locked r2 else r2

/-- A scheduler event: an insert_trade call or a wakeup of the background
flusher loop (Repo._run). -/
inductive RepoEvent (α : Type) where
  | ins (t : α)
  | tick
deriving DecidableEq

/-- One scheduler step. -/
def repoStep {α : Type} (batch_size : ℕ) (r : RepoState α) : RepoEvent α → RepoState α
  | .ins t => insert_trade batch_size r t
  | .tick => flush_locked r

/-- Run an event interleaving. -/
def runRepo {α : Type} (batch_size : ℕ) (r : RepoState α) (evs : List (RepoEvent α)) :
    RepoState α :=
  evs.foldl (repoStep batch_size) r

/-- Repo.shutdown: a final flush of any residual batch. -/
def shutdownRepo {α : Type} (r : RepoState α) : RepoState α := flush_locked r

/-- The trades inserted by an event sequence, in order. -/
def insertedOf {α : Type} : List (RepoEvent α) → List α
  | [] => []
  | .ins t :: evs => t :: insertedOf evs
  | .tick :: evs => insertedOf evs

theorem flush_locked_eq {α : Type} (r : RepoState α) :
    flush_locked r = ⟨[], r.stored ++ r.batch⟩ := by
  obtain ⟨b, s⟩ := r
  cases b with
  | nil => simp [flush_locked]
  | cons x xs => simp [flush_locked]

theorem insert_trade_sum {α : Type} (batch_size : ℕ) (r : RepoState α) (t : α) :
    (insert_trade batch_size r t).stored ++ (insert_trade batch_size r t).batch =
      r.stored ++ (r.batch ++ [t]) := by
  unfold insert_trade
  by_cases h : batch_size ≤ (r.batch ++ [t]).length
  · simp only [if_pos h, flush_locked_eq]
    simp
  · simp only [if_neg h]

theorem runRepo_sum {α : Type} (batch_size : ℕ) :
    ∀ (evs : List (RepoEvent α)) (r : RepoState α),
    (runRepo batch_size r evs).stored ++ (runRepo batch_size r evs).batch =
      r.stored ++ r.batch ++ insertedOf evs := by
  intro evs
  induction evs with
  | nil =>
    intro r
    simp [runRepo, insertedOf]
  | cons e evs ih =>
    intro r
    have hstep : runRepo batch_size r (e :: evs) =
        runRepo batch_size (repoStep batch_size r e) evs := rfl
    rw [hstep, ih]
    cases e with
    | ins t =>
      have hsum : (repoStep batch_size r (.ins t)).stored ++
          (repoStep batch_size r (.ins t)).batch = r.stored ++ (r.batch ++ [t]) :=
        insert_trade_sum batch_size r t
      rw [hsum, insertedOf]
      simp
    | tick =>
      have hsum : repoStep batch_size r .tick = ⟨[], r.stored ++ r.batch⟩ :=
        flush_locked_eq r
      rw [hsum, insertedOf]
      simp

/-- C5: for every batch size and every interleaving of insert_trade calls
with background-flusher wakeups, shutdown leaves every inserted trade
committed exactly once, in insertion order, with an empty residual batch; in
particular the spec's scenario (batch_size 5, 12 trades, shutdown) commits
exactly 12 trades. -/
theorem repo_trades_flushed :
    (∀ (α : Type) (batch_size : ℕ) (evs : List (RepoEvent α)),
      shutdownRepo (runRepo batch_size ⟨[], []⟩ evs) = ⟨[], insertedOf evs⟩) ∧
    (shutdownRepo (runRepo 5 (⟨[], []⟩ : RepoState ℕ)
      ((List.range 12).map RepoEvent.ins))).stored.length = 12 := by
  have hmain : ∀ (α : Type) (batch_size : ℕ) (evs : List (RepoEvent α)),
      shutdownRepo (runRepo batch_size ⟨[], []⟩ evs) = ⟨[], insertedOf evs⟩ := by
    intro α batch_size evs
    unfold shutdownRepo
    rw [flush_locked_eq, runRepo_sum]
    simp
  refine ⟨hmain, ?_⟩
  rw [hmain ℕ 5 ((List.range 12).map RepoEvent.ins)]
  decide

/- ## Publisher: publisher/websocket_pub.py

Clients are abstracted as natural numbers; the two subscription indices are
finite sets behind string- and client-keyed dicts embedded as functions into
an option type (a key absent from the Python dict is none). -/

/-- websocket_pub._norm: Python instr.replace("-", "/") for the single-char
pattern, i.e. a character map. -/
def pubNorm (s : String) : String :=
  String.mk (s.data.map (fun c => if c = '-' then '/' else c))

/-- The mutable state of a WebSocketPublisher (queue and dispatcher task are
not part of the subscription indices). -/
@[ext]
structure PubState where
  clients : Finset ℕ
  subs : String → Option (Finset ℕ)
  client_subs : ℕ → Option (Finset String)

/-- A publisher with no clients and no subscriptions. -/
def initPub : PubState := ⟨∅, fun _ => none, fun _ => none⟩

/-- WebSocketPublisher.register: add the client and overwrite its
subscription set with an empty one. -/
def register (ws : ℕ) (s : PubState) : PubState :=
  ⟨insert ws s.clients, s.subs,
    fun k => if k = ws then some ∅ else s.client_subs k⟩

/-- The Python block shared by unregister and unsubscribe: from an entry of
the subs dict, remove the client when the held set is truthy and contains it,
and pop the key when the set becomes empty. -/
def popErase (ws : ℕ) : Option (Finset ℕ) → Option (Finset ℕ)
  | some t =>
    if t ≠ ∅ ∧ ws ∈ t then
      (if t.erase ws = ∅ then none else some (t.erase ws))
    else some t
  | none => none

/-- The client_subs side of unsubscribe: remove the instrument when the held
set is truthy and contains it (the entry is never popped). -/
def dropInstr (instr : String) : Option (Finset String) → Option (Finset String)
  | some c => if c ≠ ∅ ∧ instr ∈ c then some (c.erase instr) else some c
  | none => none

/-- WebSocketPublisher.unregister: drop the client, pop its subscription set,
and for each instrument in it remove the client from the subscriber set,
popping the key when the set becomes empty. -/
def unregister (ws : ℕ) (s : PubState) : PubState :=
  ⟨s.clients.erase ws,
    fun instr =>
      if instr ∈ (s.client_subs ws).getD ∅ then popErase ws (s.subs instr)
      else s.subs instr,
    fun k => if k = ws then none else s.client_subs k⟩

/-- The body of WebSocketPublisher.subscribe after key normalization: create
the subscriber set when absent or empty, add the client; setdefault-and-add
on the client index. -/
def subscribeKey (ws : ℕ) (instr : String) (s : PubState) : PubState :=
  ⟨s.clients,
    fun k => if k = instr then some (insert ws ((s.subs instr).getD ∅)) else s.subs k,
    fun k => if k = ws then some (insert instr ((s.client_subs ws).getD ∅))
      else s.client_subs k⟩

/-- WebSocketPublisher.subscribe. -/
def subscribe (ws : ℕ) (instrument : String) (s : PubState) : PubState :=
  subscribeKey ws (pubNorm instrument) s

/-- The body of WebSocketPublisher.unsubscribe after key normalization. -/
def unsubscribeKey (ws : ℕ) (instr : String) (s : PubState) : PubState :=
  ⟨s.clients,
    fun k => if k = instr then popErase ws (s.subs instr) else s.subs k,
    fun k => if k = ws then dropInstr instr (s.client_subs ws) else s.client_subs k⟩

/-- WebSocketPublisher.unsubscribe. -/
def unsubscribe (ws : ℕ) (instrument : String) (s : PubState) : PubState :=
  unsubscribeKey ws (pubNorm instrument) s

/-- The two indices agree and no instrument key holds an empty set. -/
def Coherent (s : PubState) : Prop :=
  (∀ ws instr, (∃ t, s.subs instr = some t ∧ ws ∈ t) ↔
    (∃ c, s.client_subs ws = some c ∧ instr ∈ c)) ∧
  (∀ instr, s.subs instr ≠ some ∅)

/- ### Publisher lemmas -/

theorem popErase_mem_self (ws : ℕ) (o : Option (Finset ℕ)) (hne : o ≠ some ∅) :
    ¬∃ t, popErase ws o = some t ∧ ws ∈ t := by
  rintro ⟨t, ht, hm⟩
  rcases o with _ | t0
  · simp [popErase] at ht
  · have ht0 : t0 ≠ ∅ := fun h => hne (by rw [h])
    by_cases hcnd : t0 ≠ ∅ ∧ ws ∈ t0
    · simp only [popErase, if_pos hcnd] at ht
      by_cases hemp : t0.erase ws = ∅
      · rw [if_pos hemp] at ht; cases ht
      · rw [if_neg hemp] at ht
        have heq := Option.some.inj ht
        subst heq
        exact Finset.not_mem_erase _ _ hm
    · simp only [popErase, if_neg hcnd] at ht
      have heq := Option.some.inj ht
      subst heq
      exact hcnd ⟨ht0, hm⟩

theorem popErase_mem_other (ws ws' : ℕ) (o : Option (Finset ℕ)) (hw : ws' ≠ ws) :
    (∃ t, popErase ws o = some t ∧ ws' ∈ t) ↔ ∃ t, o = some t ∧ ws' ∈ t := by
  rcases o with _ | t0
  · simp [popErase]
  · by_cases hcnd : t0 ≠ ∅ ∧ ws ∈ t0
    · simp only [popErase, if_pos hcnd]
      by_cases hemp : t0.erase ws = ∅
      · rw [if_pos hemp]
        constructor
        · rintro ⟨t, ht, _⟩; cases ht
        · rintro ⟨t, ht, hm⟩
          have heq := Option.some.inj ht
          subst heq
          exact absurd hemp (Finset.ne_empty_of_mem (Finset.mem_erase.mpr ⟨hw, hm⟩))
      · rw [if_neg hemp]
        constructor
        · rintro ⟨t, ht, hm⟩
          have heq := Option.some.inj ht
          subst heq
          exact ⟨t0, rfl, Finset.mem_of_mem_erase hm⟩
        · rintro ⟨t, ht, hm⟩
          have heq := Option.some.inj ht
          subst heq
          exact ⟨t0.erase ws, rfl, Finset.mem_erase.mpr ⟨hw, hm⟩⟩
    · simp only [popErase, if_neg hcnd]

theorem popErase_ne_empty (ws : ℕ) (o : Option (Finset ℕ)) (hne : o ≠ some ∅) :
    popErase ws o ≠ some ∅ := by
  rcases o with _ | t0
  · simp [popErase]
  · have ht0 : t0 ≠ ∅ := fun h => hne (by rw [h])
    by_cases hcnd : t0 ≠ ∅ ∧ ws ∈ t0
    · simp only [popErase, if_pos hcnd]
      by_cases hemp : t0.erase ws = ∅
      · rw [if_pos hemp]; simp
      · rw [if_neg hemp]; simpa using hemp
    · simp only [popErase, if_neg hcnd]
      simpa using ht0

theorem dropInstr_mem_self (instr : String) (o : Option (Finset String)) :
    ¬∃ c, dropInstr instr o = some c ∧ instr ∈ c := by
  rintro ⟨c, hc, hic⟩
  rcases o with _ | c0
  · simp [dropInstr] at hc
  · by_cases hcnd : c0 ≠ ∅ ∧ instr ∈ c0
    · simp only [dropInstr, if_pos hcnd] at hc
      have heq := Option.some.inj hc
      subst heq
      exact Finset.not_mem_erase _ _ hic
    · simp only [dropInstr, if_neg hcnd] at hc
      have heq := Option.some.inj hc
      subst heq
      exact hcnd ⟨Finset.ne_empty_of_mem hic, hic⟩

theorem dropInstr_mem_other (instr instr' : String) (o : Option (Finset String))
    (hi : instr' ≠ instr) :
    (∃ c, dropInstr instr o = some c ∧ instr' ∈ c) ↔ ∃ c, o = some c ∧ instr' ∈ c := by
  rcases o with _ | c0
  · simp [dropInstr]
  · by_cases hcnd : c0 ≠ ∅ ∧ instr ∈ c0
    · simp only [dropInstr, if_pos hcnd]
      constructor
      · rintro ⟨c, hc, hm⟩
        have heq := Option.some.inj hc
        subst heq
        exact ⟨c0, rfl, Finset.mem_of_mem_erase hm⟩
      · rintro ⟨c, hc, hm⟩
        have heq := Option.some.inj hc
        subst heq
        exact ⟨c0.erase instr, rfl, Finset.mem_erase.mpr ⟨hi, hm⟩⟩
    · simp only [dropInstr, if_neg hcnd]

theorem coherent_initPub : Coherent initPub := by
  constructor
  · intro ws instr
    simp [initPub]
  · intro instr
    simp [initPub]

theorem coherent_register (s : PubState) (ws : ℕ) (h : Coherent s)
    (hfresh : (s.client_subs ws).getD ∅ = ∅) : Coherent (register ws s) := by
  obtain ⟨hco, hne⟩ := h
  constructor
  · intro ws' instr
    by_cases hw : ws' = ws
    · subst hw
      constructor
      · rintro ⟨t, ht, hm⟩
        exfalso
        have hold := (hco ws' instr).mp ⟨t, ht, hm⟩
        obtain ⟨c, hc, hic⟩ := hold
        rw [hc] at hfresh
        simp only [Option.getD_some] at hfresh
        subst hfresh
        simp at hic
      · rintro ⟨c, hc, hic⟩
        exfalso
        have hc' : some (∅ : Finset String) = some c := by
          simpa [register] using hc
        have heq := Option.some.inj hc'
        subst heq
        simp at hic
    · simpa [register, hw] using hco ws' instr
  · intro instr
    exact hne instr

theorem coherent_subscribeKey (s : PubState) (ws : ℕ) (instr : String)
    (h : Coherent s) : Coherent (subscribeKey ws instr s) := by
  obtain ⟨hco, hne⟩ := h
  constructor
  · intro ws' instr'
    by_cases hi : instr' = instr
    · subst hi
      by_cases hw : ws' = ws
      · subst hw
        constructor
        · intro _
          exact ⟨insert instr' ((s.client_subs ws').getD ∅), by simp [subscribeKey], by simp⟩
        · intro _
          exact ⟨insert ws' ((s.subs instr').getD ∅), by simp [subscribeKey], by simp⟩
      · constructor
        · rintro ⟨t, ht, hm⟩
          have ht' : some (insert ws ((s.subs instr').getD ∅)) = some t := by
            simpa [subscribeKey] using ht
          have heq := Option.some.inj ht'
          subst heq
          have hm' : ws' ∈ (s.subs instr').getD ∅ := by
            rcases Finset.mem_insert.mp hm with h1 | h1
            · exact absurd h1 hw
            · exact h1
          rcases hsub : s.subs instr' with _ | t0
          · rw [hsub] at hm'; simp at hm'
          · rw [hsub] at hm'
            simp only [Option.getD_some] at hm'
            obtain ⟨c, hc, hic⟩ := (hco ws' instr').mp ⟨t0, hsub, hm'⟩
            exact ⟨c, by simp [subscribeKey, hw, hc], hic⟩
        · rintro ⟨c, hc, hic⟩
          have hc' : s.client_subs ws' = some c := by simpa [subscribeKey, hw] using hc
          obtain ⟨t0, ht0, hm0⟩ := (hco ws' instr').mpr ⟨c, hc', hic⟩
          refine ⟨insert ws ((s.subs instr').getD ∅), by simp [subscribeKey], ?_⟩
          rw [ht0]
          simp only [Option.getD_some, Finset.mem_insert]
          exact Or.inr hm0
    · by_cases hw : ws' = ws
      · subst hw
        constructor
        · rintro ⟨t, ht, hm⟩
          have ht' : s.subs instr' = some t := by simpa [subscribeKey, hi] using ht
          obtain ⟨c, hc, hic⟩ := (hco ws' instr').mp ⟨t, ht', hm⟩
          refine ⟨insert instr ((s.client_subs ws').getD ∅), by simp [subscribeKey], ?_⟩
          rw [hc]
          simp only [Option.getD_some, Finset.mem_insert]
          exact Or.inr hic
        · rintro ⟨c, hc, hic⟩
          have hc' : some (insert instr ((s.client_subs ws').getD ∅)) = some c := by
            simpa [subscribeKey] using hc
          have heq := Option.some.inj hc'
          subst heq
          have hic' : instr' ∈ (s.client_subs ws').getD ∅ := by
            rcases Finset.mem_insert.mp hic with h1 | h1
            · exact absurd h1 hi
            · exact h1
          rcases hcs : s.client_subs ws' with _ | c0
          · rw [hcs] at hic'; simp at hic'
          · rw [hcs] at hic'
            simp only [Option.getD_some] at hic'
            obtain ⟨t0, ht0, hm0⟩ := (hco ws' instr').mpr ⟨c0, hcs, hic'⟩
            exact ⟨t0, by simpa [subscribeKey, hi] using ht0, hm0⟩
      · simpa [subscribeKey, hi, hw] using hco ws' instr'
  · intro instr'
    by_cases hi : instr' = instr
    · subst hi
      have hval : (subscribeKey ws instr' s).subs instr' =
          some (insert ws ((s.subs instr').getD ∅)) := by simp [subscribeKey]
      rw [hval]
      intro hcontra
      have heq := Option.some.inj hcontra
      exact Finset.insert_ne_empty _ _ heq
    · simpa [subscribeKey, hi] using hne instr'

theorem coherent_unsubscribeKey (s : PubState) (ws : ℕ) (instr : String)
    (h : Coherent s) : Coherent (unsubscribeKey ws instr s) := by
  obtain ⟨hco, hne⟩ := h
  constructor
  · intro ws' instr'
    by_cases hi : instr' = instr
    · subst hi
      by_cases hw : ws' = ws
      · subst hw
        constructor
        · rintro ⟨t, ht, hm⟩
          exfalso
          exact popErase_mem_self ws' (s.subs instr') (hne instr')
            ⟨t, by simpa [unsubscribeKey] using ht, hm⟩
        · rintro ⟨c, hc, hic⟩
          exfalso
          exact dropInstr_mem_self instr' (s.client_subs ws')
            ⟨c, by simpa [unsubscribeKey] using hc, hic⟩
      · have hL : (∃ t, (unsubscribeKey ws instr' s).subs instr' = some t ∧ ws' ∈ t) ↔
            ∃ t, s.subs instr' = some t ∧ ws' ∈ t := by
          rw [show (unsubscribeKey ws instr' s).subs instr' = popErase ws (s.subs instr')
            from by simp [unsubscribeKey]]
          exact popErase_mem_other ws ws' (s.subs instr') hw
        have hR : (∃ c, (unsubscribeKey ws instr' s).client_subs ws' = some c ∧ instr' ∈ c) ↔
            ∃ c, s.client_subs ws' = some c ∧ instr' ∈ c := by
          simp [unsubscribeKey, hw]
        rw [hL, hR]
        exact hco ws' instr'
    · by_cases hw : ws' = ws
      · subst hw
        have hL : (∃ t, (unsubscribeKey ws' instr s).subs instr' = some t ∧ ws' ∈ t) ↔
            ∃ t, s.subs instr' = some t ∧ ws' ∈ t := by
          simp [unsubscribeKey, hi]
        have hR : (∃ c, (unsubscribeKey ws' instr s).client_subs ws' = some c ∧ instr' ∈ c) ↔
            ∃ c, s.client_subs ws' = some c ∧ instr' ∈ c := by
          rw [show (unsubscribeKey ws' instr s).client_subs ws' =
            dropInstr instr (s.client_subs ws') from by simp [unsubscribeKey]]
          exact dropInstr_mem_other instr instr' (s.client_subs ws') hi
        rw [hL, hR]
        exact hco ws' instr'
      · have hL : (∃ t, (unsubscribeKey ws instr s).subs instr' = some t ∧ ws' ∈ t) ↔
            ∃ t, s.subs instr' = some t ∧ ws' ∈ t := by
          simp [unsubscribeKey, hi]
        have hR : (∃ c, (unsubscribeKey ws instr s).client_subs ws' = some c ∧ instr' ∈ c) ↔
            ∃ c, s.client_subs ws' = some c ∧ instr' ∈ c := by
          simp [unsubscribeKey, hw]
        rw [hL, hR]
        exact hco ws' instr'
  · intro instr'
    by_cases hi : instr' = instr
    · subst hi
      rw [show (unsubscribeKey ws instr' s).subs instr' = popErase ws (s.subs instr')
        from by simp [unsubscribeKey]]
      exact popErase_ne_empty ws (s.subs instr') (hne instr')
    · simpa [unsubscribeKey, hi] using hne instr'

theorem coherent_unregister (s : PubState) (ws : ℕ) (h : Coherent s) :
    Coherent (unregister ws s) := by
  obtain ⟨hco, hne⟩ := h
  constructor
  · intro ws' instr
    by_cases hw : ws' = ws
    · subst hw
      constructor
      · rintro ⟨t, ht, hm⟩
        exfalso
        by_cases hmem : instr ∈ (s.client_subs ws').getD ∅
        · have hpe : popErase ws' (s.subs instr) = some t := by
            simpa [unregister, hmem] using ht
          exact popErase_mem_self ws' (s.subs instr) (hne instr) ⟨t, hpe, hm⟩
        · have hsub : s.subs instr = some t := by simpa [unregister, hmem] using ht
          obtain ⟨c, hc, hic⟩ := (hco ws' instr).mp ⟨t, hsub, hm⟩
          apply hmem
          rw [hc]
          simpa using hic
      · rintro ⟨c, hc, hic⟩
        exfalso
        simp [unregister] at hc
    · constructor
      · rintro ⟨t, ht, hm⟩
        have hold : ∃ t, s.subs instr = some t ∧ ws' ∈ t := by
          by_cases hmem : instr ∈ (s.client_subs ws).getD ∅
          · have hpe : popErase ws (s.subs instr) = some t := by
              simpa [unregister, hmem] using ht
            exact (popErase_mem_other ws ws' (s.subs instr) hw).mp ⟨t, hpe, hm⟩
          · exact ⟨t, by simpa [unregister, hmem] using ht, hm⟩
        obtain ⟨c, hc, hic⟩ := (hco ws' instr).mp hold
        exact ⟨c, by simp [unregister, hw, hc], hic⟩
      · rintro ⟨c, hc, hic⟩
        have hc' : s.client_subs ws' = some c := by simpa [unregister, hw] using hc
        obtain ⟨t, ht, hm⟩ := (hco ws' instr).mpr ⟨c, hc', hic⟩
        by_cases hmem : instr ∈ (s.client_subs ws).getD ∅
        · obtain ⟨t2, ht2, hm2⟩ := (popErase_mem_other ws ws' (s.subs instr) hw).mpr ⟨t, ht, hm⟩
          exact ⟨t2, by simp [unregister, hmem, ht2], hm2⟩
        · exact ⟨t, by simp [unregister, hmem, ht], hm⟩
  · intro instr
    by_cases hmem : instr ∈ (s.client_subs ws).getD ∅
    · rw [show (unregister ws s).subs instr = popErase ws (s.subs instr)
        from by simp [unregister, hmem]]
      exact popErase_ne_empty ws (s.subs instr) (hne instr)
    · simpa [unregister, hmem] using hne instr

theorem unregister_removes_everywhere (s : PubState) (ws : ℕ) (instr : String)
    (t : Finset ℕ) (h : Coherent s) (ht : (unregister ws s).subs instr = some t) :
    ws ∉ t := by
  obtain ⟨hco, hne⟩ := h
  intro hm
  by_cases hmem : instr ∈ (s.client_subs ws).getD ∅
  · have hpe : popErase ws (s.subs instr) = some t := by simpa [unregister, hmem] using ht
    exact popErase_mem_self ws (s.subs instr) (hne instr) ⟨t, hpe, hm⟩
  · have hsub : s.subs instr = some t := by simpa [unregister, hmem] using ht
    obtain ⟨c, hc, hic⟩ := (hco ws instr).mp ⟨t, hsub, hm⟩
    apply hmem
    rw [hc]
    simpa using hic

/- ### Claim theorems for the publisher -/

/-- C6 counterexample: register, subscribe, register again on the same client
leaves the client inside subs but with an empty client_subs entry, so the
two indices disagree and the state is not coherent. -/
theorem publisher_coherence_counterexample :
    ¬ Coherent (register 0 (subscribe 0 "X" (register 0 initPub))) := by
  intro h
  obtain ⟨hco, _⟩ := h
  have hsub : (register 0 (subscribe 0 "X" (register 0 initPub))).subs "X" =
      some {0} := by decide
  have hmem : (0 : ℕ) ∈ ({0} : Finset ℕ) := by decide
  obtain ⟨c, hc, hic⟩ := (hco 0 "X").mp ⟨{0}, hsub, hmem⟩
  have hc0 : (register 0 (subscribe 0 "X" (register 0 initPub))).client_subs 0 =
      some ∅ := by decide
  rw [hc0] at hc
  have heq := Option.some.inj hc
  subst heq
  simp at hic

/-- C6 (amended): the bidirectional indices stay coherent (a client is in
subs of an instrument iff the instrument is in the client's client_subs
entry, and no instrument key ever holds an empty subscriber set) under every
interleaving of subscribe, unsubscribe and unregister, and under register
for clients with no current subscriptions; moreover unregister removes the
client from every instrument's subscriber set.  (Calling register on an
already-subscribed client breaks coherence, as the counterexample shows.) -/
theorem publisher_indices_coherent :
    Coherent initPub ∧
    (∀ (s : PubState) (ws : ℕ), Coherent s → (s.client_subs ws).getD ∅ = ∅ →
      Coherent (register ws s)) ∧
    (∀ (s : PubState) (ws : ℕ) (instrument : String), Coherent s →
      Coherent (subscribe ws instrument s)) ∧
    (∀ (s : PubState) (ws : ℕ) (instrument : String), Coherent s →
      Coherent (unsubscribe ws instrument s)) ∧
    (∀ (s : PubState) (ws : ℕ), Coherent s → Coherent (unregister ws s)) ∧
    (∀ (s : PubState) (ws : ℕ) (instr : String) (t : Finset ℕ), Coherent s →
      (unregister ws s).subs instr = some t → ws ∉ t) :=
  ⟨coherent_initPub,
   coherent_register,
   fun s ws instrument h => coherent_subscribeKey s ws (pubNorm instrument) h,
   fun s ws instrument h => coherent_unsubscribeKey s ws (pubNorm instrument) h,
   coherent_unregister,
   unregister_removes_everywhere⟩

/-- Witness for the amended C6: a concrete register-subscribe chain is
coherent. -/
theorem publisher_indices_coherent_witness :
    Coherent (subscribe 0 "BTC/USDT" (register 0 initPub)) :=
  publisher_indices_coherent.2.2.1 (register 0 initPub) 0 "BTC/USDT"
    (publisher_indices_coherent.2.1 initPub 0 publisher_indices_coherent.1 rfl)

theorem unregister_noop (s : PubState) (ws : ℕ) (h1 : ws ∉ s.clients)
    (h2 : s.client_subs ws = none) : unregister ws s = s := by
  have hcl : (unregister ws s).clients = s.clients := Finset.erase_eq_of_not_mem h1
  have hsubs : (unregister ws s).subs = s.subs := by
    funext instr
    simp [unregister, h2]
  have hcs : (unregister ws s).client_subs = s.client_subs := by
    funext k
    by_cases hk : k = ws
    · subst hk
      simp [unregister, h2]
    · simp [unregister, hk]
  exact PubState.ext hcl hsubs hcs

/-- C10: unregister is total and idempotent: on a client unknown to the
publisher (not in clients, no client_subs entry) it leaves the state
unchanged, and running it twice equals running it once. -/
theorem unregister_idempotent_total :
    (∀ (s : PubState) (ws : ℕ), ws ∉ s.clients → s.client_subs ws = none →
      unregister ws s = s) ∧
    (∀ (s : PubState) (ws : ℕ), unregister ws (unregister ws s) = unregister ws s) :=
  ⟨unregister_noop,
   fun s ws => unregister_noop (unregister ws s) ws
     (Finset.not_mem_erase _ _) (by simp [unregister])⟩

/-- Witness for C10 at the empty publisher. -/
theorem unregister_idempotent_total_witness :
    unregister 0 initPub = initPub :=
  unregister_idempotent_total.1 initPub 0 (by decide) rfl

/- ## Replay service: services/replay_service.py -/

/-- `float(speed) if speed else 1.0`: None and 0 both collapse to 1.0. -/
def pySpeed : Option ℚ → ℚ
  | some v => if v ≠ 0 then v else 1
  | none => 1

/-- The session record create_session stores (the uuid session id is external
randomness and not modelled). -/
structure ReplaySession where
  instrument : String
  from_ts : ℚ
  to_ts : ℚ
  speed : ℚ
deriving DecidableEq

/-- replay_service.create_session. -/
def create_session (parseIso : String → Option ℚ) (now : ℚ) (instrument : String)
    (from_ts to_ts : Option TsVal) (speed : Option ℚ) : ReplaySession :=
  ⟨instrument, to_dt parseIso now from_ts, to_dt parseIso now to_ts, pySpeed speed⟩

/-- The pacing between consecutive replay events in stream_replay:
`(cur - prev) / (speed if speed else 1.0)`. -/
def replayWait (speed : Option ℚ) (prev cur : ℚ) : ℚ :=
  (cur - prev) / pySpeed speed

/- ### Claim theorems for the replay service -/

/-- C7 counterexample: a replay requested with speed 0 is not rejected:
create_session succeeds and stores exactly the session it would store for a
nil speed (speed 1.0), and streaming paces with divisor 1. -/
theorem replay_speed_zero_counterexample :
    create_session (fun _ => none) 0 "BTC/USDT" none none (some 0) =
      create_session (fun _ => none) 0 "BTC/USDT" none none none ∧
    (create_session (fun _ => none) 0 "BTC/USDT" none none (some 0)).speed = 1 ∧
    replayWait (some 0) 0 2 = 2 := by
  refine ⟨rfl, rfl, ?_⟩
  norm_num [replayWait, pySpeed]

/-- C7 (amended): speed 0 and nil speed are both treated as 1.0 (never
rejected); every nonzero provided speed is stored as given and is the pacing
divisor between consecutive events. -/
theorem replay_speed_semantics :
    pySpeed none = 1 ∧ pySpeed (some 0) = 1 ∧
    (∀ sp : ℚ, sp ≠ 0 → pySpeed (some sp) = sp) ∧
    (∀ (parseIso : String → Option ℚ) (now : ℚ) (instrument : String)
       (f t : Option TsVal) (sp : Option ℚ),
       (create_session parseIso now instrument f t sp).speed = pySpeed sp) ∧
    (∀ (sp prev cur : ℚ), sp ≠ 0 →
      replayWait (some sp) prev cur = (cur - prev) / sp) := by
  refine ⟨rfl, by norm_num [pySpeed], ?_, ?_, ?_⟩
  · intro sp h
    simp [pySpeed, h]
  · intro parseIso now instrument f t sp
    rfl
  · intro sp prev cur h
    simp [replayWait, pySpeed, h]

/-- Witness for the amended C7 at speed 2. -/
theorem replay_speed_semantics_witness :
    pySpeed (some 2) = 2 ∧ replayWait (some 2) 0 1 = 1 / 2 := by
  constructor
  · exact replay_speed_semantics.2.2.1 2 (by norm_num)
  · have h := replay_speed_semantics.2.2.2.2 2 0 1 (by norm_num)
    rw [h]
    norm_num
